import Mathlib

set_option maxHeartbeats 1000000

/-! Shallow embedding of the aggregation library of the finance-tracker
repository (src/src/utils/financialUtils.js).  JS numbers are modelled as
rationals, with NaN represented separately; record fields hold JS values. -/

/-- JS runtime values that can appear in a record field: a finite number
(modelled as a rational), a string, NaN, or undefined. -/
inductive JSVal where
  | num (q : ℚ)
  | str (s : String)
  | nan
  | undef
  deriving DecidableEq, Repr, Inhabited

/-- JS truthiness: 0, NaN, the empty string and undefined are falsy. -/
def falsy : JSVal → Bool
  | .num q => decide (q = 0)
  | .str s => decide (s = "")
  | .nan => true
  | .undef => true

/-- The JS expression `a || b`: yields `b` when `a` is falsy, else `a`. -/
def jsOr (a b : JSVal) : JSVal := if falsy a then b else a

-- ==================== parseFloat ====================

/-- Value of a list of decimal digit characters. -/
def digitsVal (l : List Char) : ℕ :=
  l.foldl (fun n c => 10 * n + (c.toNat - 48)) 0

/-- Parse the optional exponent that may follow a mantissa: an optional sign
followed by digits.  As in JS `parseFloat`, a malformed exponent tail is
ignored (exponent 0). -/
def parseExpPart (l : List Char) : ℤ :=
  let p : ℤ × List Char :=
    match l with
    | '+' :: r => (1, r)
    | '-' :: r => (-1, r)
    | _ => (1, l)
  let ds := p.2.takeWhile (fun c => c.isDigit)
  if ds.isEmpty then 0 else p.1 * (digitsVal ds : ℤ)

/-- JS `parseFloat` on a character list: skip leading whitespace, read an
optional sign, integer digits, an optional fraction and an optional
exponent; trailing garbage is ignored.  Returns `none` for NaN (no digits
at all).  The non-finite value `Infinity` is outside the model. -/
def parseFloatChars (l0 : List Char) : Option ℚ :=
  let l := l0.dropWhile (fun c => c == ' ' || c == '\t' || c == '\n' || c == '\r')
  let sp : ℚ × List Char :=
    match l with
    | '+' :: r => (1, r)
    | '-' :: r => (-1, r)
    | _ => (1, l)
  let ip := sp.2.takeWhile (fun c => c.isDigit)
  let l1 := sp.2.dropWhile (fun c => c.isDigit)
  let fp : List Char × List Char :=
    match l1 with
    | '.' :: r => (r.takeWhile (fun c => c.isDigit), r.dropWhile (fun c => c.isDigit))
    | _ => ([], l1)
  if ip.isEmpty && fp.1.isEmpty then none
  else
    let mantissa : ℚ := (digitsVal ip : ℚ) + (digitsVal fp.1 : ℚ) / (10 : ℚ) ^ fp.1.length
    let e : ℤ :=
      match fp.2 with
      | 'e' :: r => parseExpPart r
      | 'E' :: r => parseExpPart r
      | _ => 0
    some (sp.1 * mantissa * (10 : ℚ) ^ e)

/-- JS `parseFloat` on a JS value.  A finite number round-trips to itself
through its string form; NaN and undefined parse to NaN (`none`). -/
def parseFloat : JSVal → Option ℚ
  | .num q => some q
  | .str s => parseFloatChars s.toList
  | .nan => none
  | .undef => none

-- ==================== records ====================

/-- An expense record, restricted to the fields the aggregation functions
read.  `category` is `none` when absent; `date` is the millisecond
timestamp `new Date(expense.date).getTime()` (the model takes the local
time zone to be UTC), `none` when the field is absent/empty (an invalid
date, whose `getTime()` is NaN). -/
structure Expense where
  amount : JSVal
  category : Option String
  date : Option ℤ
  deriving DecidableEq, Repr, Inhabited

/-- A budget record as consumed by `validateBudget`. -/
structure Budget where
  amount : JSVal
  category : Option String
  deriving DecidableEq, Repr, Inhabited

-- ==================== budget calculations ====================

/-- Source: `calculateBudgetUtilization(spent, budget)`. -/
def calculateBudgetUtilization (spent budget : ℚ) : ℚ :=
  if budget = 0 then 0 else min (spent / budget * 100) 100

/-- The four budget status strings returned by `getBudgetStatus`. -/
inductive BudgetStatus where
  | healthy
  | caution
  | warning
  | exceeded
  deriving DecidableEq, Repr

/-- Source: `getBudgetStatus(spent, budget)` (the source's local
`utilization` constant is inlined). -/
def getBudgetStatus (spent budget : ℚ) : BudgetStatus :=
  if 100 ≤ calculateBudgetUtilization spent budget then .exceeded
  else if 90 ≤ calculateBudgetUtilization spent budget then .warning
  else if 75 ≤ calculateBudgetUtilization spent budget then .caution
  else .healthy

/-- Severity order on statuses used by the spec:
healthy < caution < warning < exceeded. -/
def severity : BudgetStatus → ℕ
  | .healthy => 0
  | .caution => 1
  | .warning => 2
  | .exceeded => 3

-- ==================== theorems: C1, C2, C3, C10 ====================

/-- C1: getBudgetStatus returns exactly one of the four statuses, determined
by the utilization percentage via thresholds checked in descending order:
exceeded iff utilization ≥ 100, warning iff 90 ≤ utilization < 100,
caution iff 75 ≤ utilization < 90, healthy iff utilization < 75. -/
theorem getBudgetStatus_threshold_cases (s b : ℚ) :
    (getBudgetStatus s b = .exceeded ↔ 100 ≤ calculateBudgetUtilization s b) ∧
    (getBudgetStatus s b = .warning ↔
      90 ≤ calculateBudgetUtilization s b ∧ calculateBudgetUtilization s b < 100) ∧
    (getBudgetStatus s b = .caution ↔
      75 ≤ calculateBudgetUtilization s b ∧ calculateBudgetUtilization s b < 90) ∧
    (getBudgetStatus s b = .healthy ↔ calculateBudgetUtilization s b < 75) := by
  unfold getBudgetStatus
  split_ifs with h1 h2 h3 <;>
    simp only [eq_self_iff_true, true_iff, iff_true, false_iff, iff_false,
      reduceCtorEq, not_and, not_lt, not_le] <;>
    refine ⟨?_, ?_, ?_, ?_⟩ <;> intros <;>
    first | linarith | exact ⟨by linarith, by linarith⟩

/-- C2: for budget > 0 the utilization is min(spent/budget*100, 100), and a
zero budget yields utilization 0 (total function, no error). -/
theorem calculateBudgetUtilization_spec (s b : ℚ) :
    (0 < b → calculateBudgetUtilization s b = min (s / b * 100) 100) ∧
    calculateBudgetUtilization s 0 = 0 := by
  constructor
  · intro hb
    unfold calculateBudgetUtilization
    rw [if_neg (ne_of_gt hb)]
  · unfold calculateBudgetUtilization
    rw [if_pos rfl]

theorem calculateBudgetUtilization_spec_witness :
    calculateBudgetUtilization 50 200 = min ((50 : ℚ) / 200 * 100) 100 ∧
    calculateBudgetUtilization 37 0 = 0 :=
  ⟨(calculateBudgetUtilization_spec 50 200).1 (by norm_num),
   (calculateBudgetUtilization_spec 37 0).2⟩

/-- Utilization is monotone in spend for a fixed non-negative budget. -/
theorem utilization_mono {b : ℚ} (hb : 0 ≤ b) {x1 x2 : ℚ} (h : x1 ≤ x2) :
    calculateBudgetUtilization x1 b ≤ calculateBudgetUtilization x2 b := by
  unfold calculateBudgetUtilization
  split_ifs with h0
  · exact le_refl 0
  · have hbpos : 0 < b := lt_of_le_of_ne hb (Ne.symm h0)
    gcongr

/-- C3: for a fixed (non-negative, per the data model) budget, the severity
of getBudgetStatus never decreases as spend increases. -/
theorem getBudgetStatus_monotone {b x1 x2 : ℚ} (hb : 0 ≤ b) (h : x1 ≤ x2) :
    severity (getBudgetStatus x1 b) ≤ severity (getBudgetStatus x2 b) := by
  have hu := utilization_mono hb h
  unfold getBudgetStatus
  split_ifs <;> simp only [severity] <;> first | omega | (exfalso; linarith)

theorem getBudgetStatus_monotone_witness :
    severity (getBudgetStatus 50 100) ≤ severity (getBudgetStatus 95 100) :=
  getBudgetStatus_monotone (by norm_num) (by norm_num)

/-- C10: with a zero budget the utilization is defined to be 0, so the
status is healthy no matter how much was spent. -/
theorem getBudgetStatus_zero_budget (s : ℚ) : getBudgetStatus s 0 = .healthy := by
  unfold getBudgetStatus calculateBudgetUtilization
  norm_num

-- ==================== expense totals and grouping ====================

/-- JS addition restricted to the number line with NaN: NaN propagates. -/
def jsAdd : Option ℚ → Option ℚ → Option ℚ
  | some a, some b => some (a + b)
  | _, _ => none

theorem jsAdd_zero_left (x : Option ℚ) : jsAdd (some 0) x = x := by
  cases x <;> simp [jsAdd]

theorem jsAdd_zero_right (x : Option ℚ) : jsAdd x (some 0) = x := by
  cases x <;> simp [jsAdd]

theorem jsAdd_none_left (y : Option ℚ) : jsAdd none y = none := by
  cases y <;> rfl

theorem jsAdd_none_right (x : Option ℚ) : jsAdd x none = none := by
  cases x <;> rfl

theorem jsAdd_comm (x y : Option ℚ) : jsAdd x y = jsAdd y x := by
  cases x <;> cases y <;> simp [jsAdd, add_comm]

theorem jsAdd_assoc (x y z : Option ℚ) : jsAdd (jsAdd x y) z = jsAdd x (jsAdd y z) := by
  cases x <;> cases y <;> cases z <;> simp [jsAdd, add_assoc]

/-- The contribution of one record to a total:
`parseFloat(expense.amount || 0)`. -/
def amountContrib (e : Expense) : Option ℚ := parseFloat (jsOr e.amount (.num 0))

/-- Source: `calculateTotalExpenses(expenses)`. -/
def calculateTotalExpenses (es : List Expense) : Option ℚ :=
  es.foldl (fun t e => jsAdd t (amountContrib e)) (some 0)

theorem foldl_jsAdd_init {α : Type} (f : α → Option ℚ) (l : List α) (i : Option ℚ) :
    l.foldl (fun t x => jsAdd t (f x)) i =
      jsAdd i (l.foldl (fun t x => jsAdd t (f x)) (some 0)) := by
  induction l generalizing i with
  | nil => simp [jsAdd_zero_right]
  | cons x l ih =>
    simp only [List.foldl_cons]
    rw [ih (jsAdd i (f x)), ih (jsAdd (some 0) (f x)), jsAdd_zero_left, jsAdd_assoc]

theorem foldl_jsAdd_some {α : Type} (f : α → Option ℚ) (l : List α)
    (h : ∀ x ∈ l, f x ≠ none) :
    l.foldl (fun t x => jsAdd t (f x)) (some 0) =
      some ((l.map fun x => (f x).getD 0).sum) := by
  induction l with
  | nil => simp
  | cons x l ih =>
    obtain ⟨qx, hqx⟩ : ∃ q, f x = some q := by
      cases hfx : f x with
      | none => exact absurd hfx (h x (List.mem_cons_self x l))
      | some q => exact ⟨q, rfl⟩
    simp only [List.foldl_cons, jsAdd_zero_left]
    rw [foldl_jsAdd_init, ih (fun y hy => h y (List.mem_cons_of_mem x hy)), hqx]
    simp [jsAdd, hqx]

theorem foldl_jsAdd_none {α : Type} (f : α → Option ℚ) :
    ∀ l : List α, l.foldl (fun t x => jsAdd t (f x)) none = none := by
  intro l
  induction l with
  | nil => rfl
  | cons x l ih =>
    simp only [List.foldl_cons]
    rw [jsAdd_none_left, ih]

theorem foldl_jsAdd_of_none {α : Type} (f : α → Option ℚ) :
    ∀ l : List α, (∃ x ∈ l, f x = none) →
      l.foldl (fun t x => jsAdd t (f x)) (some 0) = none := by
  intro l
  induction l with
  | nil => rintro ⟨x, hx, _⟩; cases hx
  | cons y l ih =>
    rintro ⟨x, hx, hc⟩
    simp only [List.foldl_cons, jsAdd_zero_left]
    rcases List.mem_cons.mp hx with rfl | hxl
    · rw [hc, foldl_jsAdd_none]
    · rw [foldl_jsAdd_init, ih ⟨x, hxl, hc⟩, jsAdd_none_right]

/-- One category group as built by `groupExpensesByCategory`. -/
structure CatGroup where
  total : Option ℚ
  count : ℕ
  expenses : List Expense
  deriving DecidableEq, Repr

/-- The grouping key `expense.category || 'Uncategorized'`. -/
def catKey (e : Expense) : String :=
  match e.category with
  | some c => if c = "" then "Uncategorized" else c
  | none => "Uncategorized"

/-- One step of the `reduce` in `groupExpensesByCategory`: create the
category's entry if absent, then add the record's amount, bump the count
and push the record.  The accumulator models the JS object as an
association list in insertion order. -/
def catInsert (k : String) (e : Expense) :
    List (String × CatGroup) → List (String × CatGroup)
  | [] => [(k, { total := jsAdd (some 0) (amountContrib e), count := 1, expenses := [e] })]
  | p :: rest =>
    if p.1 = k then
      (p.1, { total := jsAdd p.2.total (amountContrib e), count := p.2.count + 1,
              expenses := p.2.expenses ++ [e] }) :: rest
    else p :: catInsert k e rest

/-- Source: `groupExpensesByCategory(expenses)`. -/
def groupExpensesByCategory (es : List Expense) : List (String × CatGroup) :=
  es.foldl (fun acc e => catInsert (catKey e) e acc) []

/-- Sum of the per-category totals of a grouping. -/
def sumGroupTotals (g : List (String × CatGroup)) : Option ℚ :=
  g.foldl (fun t p => jsAdd t p.2.total) (some 0)

theorem sumGroupTotals_catInsert (k : String) (e : Expense) :
    ∀ acc, sumGroupTotals (catInsert k e acc) =
      jsAdd (sumGroupTotals acc) (amountContrib e) := by
  intro acc
  induction acc with
  | nil => simp [catInsert, sumGroupTotals, jsAdd_zero_left]
  | cons p rest ih =>
    by_cases hpk : p.1 = k
    · simp only [catInsert, if_pos hpk, sumGroupTotals, List.foldl_cons]
      rw [foldl_jsAdd_init (fun q => q.2.total) rest
          (jsAdd (some 0) (jsAdd p.2.total (amountContrib e))),
        foldl_jsAdd_init (fun q => q.2.total) rest (jsAdd (some 0) p.2.total),
        jsAdd_zero_left, jsAdd_zero_left, jsAdd_assoc, jsAdd_assoc,
        jsAdd_comm (amountContrib e)]
    · simp only [catInsert, if_neg hpk, sumGroupTotals, List.foldl_cons]
      rw [foldl_jsAdd_init (fun q => q.2.total) (catInsert k e rest)
          (jsAdd (some 0) p.2.total),
        foldl_jsAdd_init (fun q => q.2.total) rest (jsAdd (some 0) p.2.total),
        jsAdd_zero_left]
      have ih' := ih
      simp only [sumGroupTotals] at ih'
      rw [ih', jsAdd_assoc]

theorem sumGroupTotals_fold (es : List Expense) :
    ∀ acc, sumGroupTotals (es.foldl (fun acc e => catInsert (catKey e) e acc) acc) =
      es.foldl (fun t e => jsAdd t (amountContrib e)) (sumGroupTotals acc) := by
  induction es with
  | nil => intro acc; rfl
  | cons e es ih =>
    intro acc
    simp only [List.foldl_cons]
    rw [ih (catInsert (catKey e) e acc), sumGroupTotals_catInsert]

/-- C4: the sum over all categories of the per-category totals produced by
groupExpensesByCategory equals calculateTotalExpenses of the whole list. -/
theorem groupExpensesByCategory_totals_sum (es : List Expense) :
    sumGroupTotals (groupExpensesByCategory es) = calculateTotalExpenses es := by
  unfold groupExpensesByCategory calculateTotalExpenses
  have h := sumGroupTotals_fold es []
  simpa [sumGroupTotals] using h

/-- C5 as stated is false: a record whose amount is a truthy but unparseable
string does not contribute 0 — it turns the whole sum into NaN.  Here the
list [{amount:"abc"}, {amount:10}] totals NaN rather than 10. -/
theorem calculateTotalExpenses_unparseable_not_zero :
    calculateTotalExpenses
      [{ amount := .str "abc", category := some "other", date := some 0 },
       { amount := .num 10, category := some "other", date := some 0 }] ≠ some 10 := by
  decide

/-- C5 amended: a record whose amount is missing or otherwise falsy
contributes 0 to the sum; whenever every record's (defaulted) amount
parses, the total is the sum of the parsed amounts; and whenever some
record's amount is a truthy value that does not parse as a number, the
entire total is NaN rather than that record contributing 0.  The function
is total and never raises. -/
theorem calculateTotalExpenses_amended :
    (∀ v : JSVal, falsy v = true → parseFloat (jsOr v (.num 0)) = some 0) ∧
    (∀ es : List Expense, (∀ e ∈ es, amountContrib e ≠ none) →
      calculateTotalExpenses es = some ((es.map fun e => (amountContrib e).getD 0).sum)) ∧
    (∀ es : List Expense, (∃ e ∈ es, amountContrib e = none) →
      calculateTotalExpenses es = none) := by
  refine ⟨?_, ?_, ?_⟩
  · intro v hv
    simp [jsOr, hv, parseFloat]
  · intro es h
    unfold calculateTotalExpenses
    exact foldl_jsAdd_some amountContrib es h
  · intro es h
    unfold calculateTotalExpenses
    exact foldl_jsAdd_of_none amountContrib es h

theorem calculateTotalExpenses_amended_witness :
    parseFloat (jsOr .undef (.num 0)) = some 0 ∧
    calculateTotalExpenses
      [{ amount := .num 10, category := some "food", date := some 0 },
       { amount := .undef, category := some "food", date := some 0 }] = some 10 ∧
    calculateTotalExpenses
      [{ amount := .str "abc", category := some "other", date := some 0 },
       { amount := .num 10, category := some "other", date := some 0 }] = none :=
  ⟨calculateTotalExpenses_amended.1 .undef rfl,
   (calculateTotalExpenses_amended.2.1 _ (by decide)).trans
     (by simp [amountContrib, parseFloat, jsOr, falsy]),
   calculateTotalExpenses_amended.2.2 _ (by decide)⟩

-- ==================== date range filter ====================

/-- Milliseconds per day. -/
def dayMs : ℤ := 86400000

/-- Source: `filterExpensesByDateRange(expenses, startDate, endDate)`.
`new Date(startDate).setHours(0,0,0,0)` floors the start timestamp to
midnight and `new Date(endDate).setHours(23,59,59,999)` moves the end
timestamp to the last millisecond of its day (the model takes the local
time zone to be UTC); a record with an invalid date (`getTime()` NaN,
modelled as `none`) fails both comparisons and is dropped. -/
def filterExpensesByDateRange (es : List Expense) (startDate endDate : ℤ) : List Expense :=
  es.filter fun e =>
    match e.date with
    | none => false
    | some t =>
      decide (startDate / dayMs * dayMs ≤ t) &&
      decide (t ≤ endDate / dayMs * dayMs + (dayMs - 1))

/-- C7: filterExpensesByDateRange keeps exactly the records whose calendar
day lies in the inclusive range of the start and end days: the start is
normalized to start-of-day and the end to end-of-day, so a record dated
anywhere on the end day is included. -/
theorem filterExpensesByDateRange_spec (es : List Expense) (s en : ℤ) (r : Expense) :
    r ∈ filterExpensesByDateRange es s en ↔
      r ∈ es ∧ ∃ t, r.date = some t ∧
        s / dayMs ≤ t / dayMs ∧ t / dayMs ≤ en / dayMs := by
  unfold filterExpensesByDateRange
  rw [List.mem_filter]
  apply and_congr_right
  intro _
  cases hr : r.date with
  | none => simp
  | some t =>
    simp only [Bool.and_eq_true, decide_eq_true_eq, Option.some.injEq]
    constructor
    · rintro ⟨h1, h2⟩
      refine ⟨t, rfl, ?_, ?_⟩ <;> (simp only [dayMs] at h1 h2 ⊢; omega)
    · rintro ⟨t', ht', h1, h2⟩
      cases ht'
      constructor <;> (simp only [dayMs] at h1 h2 ⊢; omega)

-- ==================== validation ====================

/-- The result shape returned by the validation functions. -/
structure ValidationResult where
  isValid : Bool
  errors : List String
  deriving DecidableEq, Repr

/-- The JS comparison `parseFloat(x) <= 0`, which is false for NaN. -/
def jsLeZero : Option ℚ → Bool
  | some q => decide (q ≤ 0)
  | none => false

/-- The JS test `!category || category.trim() === ''`. -/
def catMissing : Option String → Bool
  | none => true
  | some s => decide (s = "") || decide (s.trim = "")

/-- The error list built by `validateExpense`, in push order. -/
def expenseErrors (e : Expense) : List String :=
  (if falsy e.amount || (parseFloat e.amount).isNone then ["Invalid amount"] else []) ++
  (if jsLeZero (parseFloat e.amount) then ["Amount must be positive"] else []) ++
  (if catMissing e.category then ["Category is required"] else []) ++
  (if e.date = none then ["Date is required"] else [])

/-- Source: `validateExpense(expense)`; `isValid` is `errors.length === 0`. -/
def validateExpense (e : Expense) : ValidationResult :=
  { isValid := decide ((expenseErrors e).length = 0), errors := expenseErrors e }

/-- The error list built by `validateBudget`, in push order. -/
def budgetErrors (b : Budget) : List String :=
  (if falsy b.amount || (parseFloat b.amount).isNone then ["Invalid budget amount"] else []) ++
  (if jsLeZero (parseFloat b.amount) then ["Budget must be positive"] else []) ++
  (if catMissing b.category then ["Category is required"] else [])

/-- Source: `validateBudget(budget)`; `isValid` is `errors.length === 0`. -/
def validateBudget (b : Budget) : ValidationResult :=
  { isValid := decide ((budgetErrors b).length = 0), errors := budgetErrors b }

/-- C9: both validators are total (never raise), return a result with an
ordered error list drawn from the fixed human-readable messages in source
order, and isValid holds exactly when the error list is empty. -/
theorem validate_result_spec (e : Expense) (b : Budget) :
    ((validateExpense e).isValid = true ↔ (validateExpense e).errors = []) ∧
    (validateExpense e).errors.Sublist
      ["Invalid amount", "Amount must be positive", "Category is required",
       "Date is required"] ∧
    ((validateBudget b).isValid = true ↔ (validateBudget b).errors = []) ∧
    (validateBudget b).errors.Sublist
      ["Invalid budget amount", "Budget must be positive", "Category is required"] := by
  refine ⟨?_, ?_, ?_, ?_⟩
  · simp [validateExpense, List.length_eq_zero]
  · unfold validateExpense expenseErrors
    split_ifs <;> decide
  · simp [validateBudget, List.length_eq_zero]
  · unfold validateBudget budgetErrors
    split_ifs <;> decide

-- ==================== median ====================

/-- Ascending sort, the effect of `sort((a, b) => a - b)` on a list of
numbers (for plain values stability cannot change the result). -/
def sortAsc (qs : List ℚ) : List ℚ := qs.insertionSort (· ≤ ·)

/-- All amounts of a list of parse results, or NaN if any is NaN. -/
def allNums : List (Option ℚ) → Option (List ℚ)
  | [] => some []
  | none :: _ => none
  | some q :: rest => (allNums rest).map (fun l => q :: l)

/-- Source: `calculateMedianExpense(expenses)`.  The amounts are read with
`parseFloat(e.amount)` (no default); when one of them is NaN the JS
comparator is inconsistent and the sort order unspecified, which the model
reflects by returning NaN. -/
def calculateMedianExpense (es : List Expense) : Option ℚ :=
  if es.length = 0 then some 0
  else
    match allNums (es.map fun e => parseFloat e.amount) with
    | none => none
    | some qs =>
      let sorted := sortAsc qs
      let mid := sorted.length / 2
      if sorted.length % 2 = 0 then
        some ((sorted.getD (mid - 1) 0 + sorted.getD mid 0) / 2)
      else some (sorted.getD mid 0)

/-- Modelled from the spec: the median of a list of amounts — sort
ascending, average the two middle values for an even count, take the
middle one for an odd count, 0 for the empty list.  Refinement target for
`calculateMedianExpense`. -/
def medianSpec (qs : List ℚ) : ℚ :=
  if qs.length = 0 then 0
  else
    let sorted := sortAsc qs
    let mid := sorted.length / 2
    if sorted.length % 2 = 0 then (sorted.getD (mid - 1) 0 + sorted.getD mid 0) / 2
    else sorted.getD mid 0

theorem allNums_eq_some (es : List Expense)
    (h : ∀ e ∈ es, (parseFloat e.amount).isSome = true) :
    allNums (es.map fun e => parseFloat e.amount) =
      some (es.filterMap fun e => parseFloat e.amount) := by
  induction es with
  | nil => rfl
  | cons e es ih =>
    obtain ⟨q, hq⟩ := Option.isSome_iff_exists.mp (h e (List.mem_cons_self e es))
    simp only [List.map_cons, List.filterMap_cons, hq, allNums,
      ih (fun x hx => h x (List.mem_cons_of_mem e hx)), Option.map_some']

theorem allNums_length (es : List Expense)
    (h : ∀ e ∈ es, (parseFloat e.amount).isSome = true) :
    (es.filterMap fun e => parseFloat e.amount).length = es.length := by
  induction es with
  | nil => rfl
  | cons e es ih =>
    obtain ⟨q, hq⟩ := Option.isSome_iff_exists.mp (h e (List.mem_cons_self e es))
    simp [List.filterMap_cons, hq, ih (fun x hx => h x (List.mem_cons_of_mem e hx))]

/-- C6: on records whose amounts all parse as numbers,
calculateMedianExpense computes the spec's median of the parsed amounts:
it sorts them ascending (the sorted list is an ordered permutation of the
amounts) and returns the middle value for an odd count, the average of the
two middle values for an even count, and 0 for the empty list. -/
theorem calculateMedianExpense_spec (es : List Expense)
    (h : ∀ e ∈ es, (parseFloat e.amount).isSome = true) :
    calculateMedianExpense es =
      some (medianSpec (es.filterMap fun e => parseFloat e.amount)) ∧
    List.Sorted (· ≤ ·) (sortAsc (es.filterMap fun e => parseFloat e.amount)) ∧
    (sortAsc (es.filterMap fun e => parseFloat e.amount)).Perm
      (es.filterMap fun e => parseFloat e.amount) := by
  refine ⟨?_, List.sorted_insertionSort _ _, List.perm_insertionSort _ _⟩
  by_cases h0 : es.length = 0
  · have : es = [] := List.length_eq_zero.mp h0
    subst this
    rfl
  · unfold calculateMedianExpense medianSpec
    rw [if_neg h0, allNums_eq_some es h, if_neg (by rw [allNums_length es h]; exact h0)]
    dsimp only
    rw [apply_ite some]

theorem calculateMedianExpense_spec_witness :
    calculateMedianExpense [] = some 0 ∧
    calculateMedianExpense
      [{ amount := .num 10, category := some "food", date := some 0 }] = some 10 ∧
    calculateMedianExpense
      [{ amount := .num 10, category := some "food", date := some 0 },
       { amount := .num 20, category := some "food", date := some 0 }] = some 15 := by
  refine ⟨?_, ?_, ?_⟩
  · exact (calculateMedianExpense_spec [] (by simp)).1
  · exact ((calculateMedianExpense_spec _ (by decide)).1).trans
      (by norm_num [medianSpec, sortAsc, List.insertionSort, List.orderedInsert,
        parseFloat, List.filterMap_cons])
  · exact ((calculateMedianExpense_spec _ (by decide)).1).trans
      (by norm_num [medianSpec, sortAsc, List.insertionSort, List.orderedInsert,
        parseFloat, List.filterMap_cons])

-- ==================== recurring expenses ====================

/-- Count and remove the factors `p` of `n` (fuel-driven; called with
fuel `n`, which always suffices). -/
def stripCount (p : ℕ) : ℕ → ℕ → ℕ × ℕ
  | 0, n => (0, n)
  | fuel + 1, n =>
    if 2 ≤ p ∧ p ∣ n ∧ n ≠ 0 then
      let r := stripCount p fuel (n / p)
      (r.1 + 1, r.2)
    else (0, n)

/-- The least k with d dividing 10^k, when one exists. -/
def decExp (d : ℕ) : Option ℕ :=
  let r2 := stripCount 2 d d
  let r5 := stripCount 5 r2.2 r2.2
  if r5.2 = 1 then some (max r2.1 r5.1) else none

/-- Decimal string of the natural number `s`, with a decimal point placed
`k` digits from the right (zero-padded as needed). -/
def natDecimalString (k : ℕ) (s : ℕ) : String :=
  if k = 0 then toString s
  else
    let d0 := toString s
    let d1 := if d0.length ≤ k then
        String.mk (List.replicate (k + 1 - d0.length) '0') ++ d0
      else d0
    d1.take (d1.length - k) ++ "." ++ d1.drop (d1.length - k)

/-- Decimal string of a rational, matching how JS stringifies the numbers
it can represent exactly (every JS float has a finite decimal expansion;
since the fraction is reduced and k is minimal there is no trailing zero).
Rationals with no finite decimal expansion never arise from JS numbers and
fall back to a fraction form. -/
def ratToString (q : ℚ) : String :=
  let sgn := if q.num < 0 then "-" else ""
  match decExp q.den with
  | some k => sgn ++ natDecimalString k (q.num.natAbs * (10 ^ k / q.den))
  | none => sgn ++ toString q.num.natAbs ++ "/" ++ toString q.den

/-- JS string interpolation of a field value inside a template literal. -/
def jsToString : JSVal → String
  | .num q => ratToString q
  | .str s => s
  | .nan => "NaN"
  | .undef => "undefined"

/-- String interpolation of a possibly-absent category. -/
def optStr : Option String → String
  | some s => s
  | none => "undefined"

/-- The composite key of the source's reduce:
the template literal `category-amount`. -/
def recKey (e : Expense) : String := optStr e.category ++ "-" ++ jsToString e.amount

/-- One step of the grouping reduce in `identifyRecurringExpenses`: push
the record onto its key's list, creating the entry at the end on first
sight (association list in insertion order, standing for the JS object). -/
def recInsert (k : String) (e : Expense) :
    List (String × List Expense) → List (String × List Expense)
  | [] => [(k, [e])]
  | p :: rest => if p.1 = k then (p.1, p.2 ++ [e]) :: rest else p :: recInsert k e rest

/-- The grouped object built by `identifyRecurringExpenses`. -/
def recGroups (es : List Expense) : List (String × List Expense) :=
  es.foldl (fun acc e => recInsert (recKey e) e acc) []

/-- One reported recurring pattern. -/
structure RecurringGroup where
  category : Option String
  amount : JSVal
  frequency : ℕ
  expenses : List Expense
  deriving DecidableEq, Repr

/-- Source: `identifyRecurringExpenses(expenses, threshold)`: group by the
composite key, keep groups of size at least threshold, and report each as
category/amount of its first member, its size and its members. -/
def identifyRecurringExpenses (es : List Expense) (threshold : ℕ) : List RecurringGroup :=
  ((recGroups es).filter fun p => decide (threshold ≤ p.2.length)).filterMap fun p =>
    match p.2 with
    | [] => none
    | e0 :: tl => some { category := e0.category, amount := e0.amount,
                         frequency := (e0 :: tl).length, expenses := e0 :: tl }

/-- First-match association lookup, the JS object access `acc[key]`. -/
def lookupA (k : String) : List (String × List Expense) → Option (List Expense)
  | [] => none
  | p :: r => if p.1 = k then some p.2 else lookupA k r

theorem recInsert_lookup (k k' : String) (e : Expense) : ∀ acc,
    lookupA k' (recInsert k e acc) =
      if k' = k then some (((lookupA k acc).getD []) ++ [e]) else lookupA k' acc := by
  intro acc
  induction acc with
  | nil =>
    by_cases h : k' = k
    · subst h; simp [recInsert, lookupA]
    · have h2 : ¬k = k' := fun hh => h hh.symm
      simp [recInsert, lookupA, h, h2]
  | cons p rest ih =>
    by_cases h : k' = k
    · subst h
      by_cases hpk : p.1 = k'
      · simp [recInsert, lookupA, hpk]
      · have h2 : ¬k' = p.1 := fun hh => hpk hh.symm
        simp [recInsert, lookupA, hpk, h2, ih]
    · by_cases hpk2 : p.1 = k'
      · have h2 : ¬p.1 = k := fun hh => h (hpk2.symm.trans hh)
        simp [recInsert, lookupA, hpk2, h, h2]
      · by_cases hpk : p.1 = k
        · have h2 : ¬k = k' := fun hh => h hh.symm
          simp [recInsert, lookupA, hpk, hpk2, h, h2]
        · simp [recInsert, lookupA, hpk, hpk2, h, ih]

theorem recInsert_keys (k : String) (e : Expense) : ∀ acc,
    (recInsert k e acc).map Prod.fst =
      if k ∈ acc.map Prod.fst then acc.map Prod.fst else acc.map Prod.fst ++ [k] := by
  intro acc
  induction acc with
  | nil => simp [recInsert]
  | cons p rest ih =>
    by_cases hpk : p.1 = k
    · simp [recInsert, hpk]
    · have hne : ¬k = p.1 := fun hh => hpk hh.symm
      by_cases hmem : k ∈ rest.map Prod.fst
      · simp [recInsert, hpk, ih, hmem, hne]
      · simp [recInsert, hpk, ih, hmem, hne]

theorem recGroups_fold_nodup (es : List Expense) : ∀ acc,
    (acc.map Prod.fst).Nodup →
    ((es.foldl (fun acc e => recInsert (recKey e) e acc) acc).map Prod.fst).Nodup := by
  induction es with
  | nil => intro acc h; exact h
  | cons e es ih =>
    intro acc h
    simp only [List.foldl_cons]
    apply ih
    rw [recInsert_keys]
    split_ifs with hm
    · exact h
    · simp [List.nodup_append, h, hm]

theorem lookupA_eq_some_of_mem {L : List (String × List Expense)}
    (hnd : (L.map Prod.fst).Nodup) {p : String × List Expense} (hp : p ∈ L) :
    lookupA p.1 L = some p.2 := by
  induction L with
  | nil => cases hp
  | cons q rest ih =>
    rcases List.mem_cons.mp hp with h | h
    · subst h; simp [lookupA]
    · have hq : q.1 ≠ p.1 := by
        intro hEq
        have hmem : p.1 ∈ rest.map Prod.fst := List.mem_map_of_mem Prod.fst h
        rw [← hEq] at hmem
        rw [List.map_cons, List.nodup_cons] at hnd
        exact hnd.1 hmem
      rw [lookupA, if_neg hq]
      rw [List.map_cons, List.nodup_cons] at hnd
      exact ih hnd.2 h

theorem mem_of_lookupA_eq_some {k : String} {l : List Expense} :
    ∀ {L : List (String × List Expense)}, lookupA k L = some l → (k, l) ∈ L := by
  intro L
  induction L with
  | nil => intro h; cases h
  | cons p rest ih =>
    intro h
    rw [lookupA] at h
    split_ifs at h with hpk
    · cases h
      rw [← hpk]
      exact List.mem_cons_self _ _
    · exact List.mem_cons_of_mem _ (ih h)

/-- Merge a previous group with the matching records contributed by a fold
suffix. -/
def combineOpt (o : Option (List Expense)) (l : List Expense) : Option (List Expense) :=
  match o with
  | some l0 => some (l0 ++ l)
  | none => if l = [] then none else some l

theorem recGroups_fold_lookup (k : String) : ∀ (es : List Expense) acc,
    lookupA k (es.foldl (fun acc e => recInsert (recKey e) e acc) acc) =
      combineOpt (lookupA k acc) (es.filter fun e => decide (recKey e = k)) := by
  intro es
  induction es with
  | nil => intro acc; cases h : lookupA k acc <;> simp [combineOpt, h]
  | cons e es ih =>
    intro acc
    simp only [List.foldl_cons]
    rw [ih, recInsert_lookup (recKey e) k e acc]
    by_cases hk : k = recKey e
    · rw [if_pos hk, ← hk]
      rw [List.filter_cons, if_pos (by simp [hk])]
      cases h : lookupA k acc <;> simp [combineOpt, h]
    · rw [if_neg hk]
      have h2 : ¬recKey e = k := fun hh => hk hh.symm
      rw [List.filter_cons, if_neg (by simp [h2])]

theorem exists_group_of_mem (es : List Expense) {e : Expense} (he : e ∈ es) :
    ∃ p ∈ recGroups es, e ∈ p.2 := by
  have hl := recGroups_fold_lookup (recKey e) es []
  simp only [lookupA, combineOpt] at hl
  have heF : e ∈ es.filter fun x => decide (recKey x = recKey e) :=
    List.mem_filter.mpr ⟨he, by simp⟩
  have hFne : (es.filter fun x => decide (recKey x = recKey e)) ≠ [] :=
    List.ne_nil_of_mem heF
  rw [if_neg hFne] at hl
  exact ⟨(recKey e, es.filter fun x => decide (recKey x = recKey e)),
    mem_of_lookupA_eq_some hl, heF⟩

theorem recOut_filter (es : List Expense) (t : ℕ) (c : Option String) (a : JSVal)
    (hinj : ∀ e1 ∈ es, ∀ e2 ∈ es,
      recKey e1 = recKey e2 ↔ e1.category = e2.category ∧ e1.amount = e2.amount) :
    ∀ L : List (String × List Expense),
      (∀ p ∈ L, p.2 = es.filter (fun e => decide (recKey e = p.1)) ∧ p.2 ≠ []) →
      ((L.map Prod.fst).Nodup) →
      (∀ e ∈ es, e.category = c ∧ e.amount = a → ∃ p ∈ L, e ∈ p.2) →
      ((L.filter fun p => decide (t ≤ p.2.length)).filterMap fun p =>
          (match p.2 with
          | [] => none
          | e0 :: tl => some { category := e0.category, amount := e0.amount,
                               frequency := (e0 :: tl).length, expenses := e0 :: tl }
            : Option RecurringGroup)).filter
        (fun g => decide (g.category = c ∧ g.amount = a)) =
      (if t ≤ (es.filter fun e => decide (e.category = c ∧ e.amount = a)).length ∧
          (es.filter fun e => decide (e.category = c ∧ e.amount = a)) ≠ [] then
        [{ category := c, amount := a,
           frequency := (es.filter fun e => decide (e.category = c ∧ e.amount = a)).length,
           expenses := es.filter fun e => decide (e.category = c ∧ e.amount = a) }]
      else []) := by
  intro L
  induction L with
  | nil =>
    intro _ _ hcomp
    have hF : (es.filter fun e => decide (e.category = c ∧ e.amount = a)) = [] := by
      by_contra hne
      obtain ⟨e, he⟩ := List.exists_mem_of_ne_nil _ hne
      have he' := List.mem_filter.mp he
      obtain ⟨p, hp, _⟩ := hcomp e he'.1 (by simpa using he'.2)
      exact absurd hp (List.not_mem_nil p)
    rw [hF]
    simp
  | cons p L ih =>
    intro hval hnd hcomp
    obtain ⟨hp2, hpne⟩ := hval p (List.mem_cons_self p L)
    obtain ⟨e0, tl, he0⟩ : ∃ e0 tl, p.2 = e0 :: tl := by
      cases hq : p.2 with
      | nil => exact absurd hq hpne
      | cons x xs => exact ⟨x, xs, rfl⟩
    have he0p2 : e0 ∈ p.2 := by rw [he0]; exact List.mem_cons_self _ _
    have he0f := List.mem_filter.mp (hp2 ▸ he0p2)
    have he0es : e0 ∈ es := he0f.1
    have hkey0 : recKey e0 = p.1 := by simpa using he0f.2
    have hvalL : ∀ q ∈ L, q.2 = es.filter (fun e => decide (recKey e = q.1)) ∧ q.2 ≠ [] :=
      fun q hq => hval q (List.mem_cons_of_mem p hq)
    have hndL : (L.map Prod.fst).Nodup := by
      rw [List.map_cons, List.nodup_cons] at hnd; exact hnd.2
    have hp1L : p.1 ∉ L.map Prod.fst := by
      rw [List.map_cons, List.nodup_cons] at hnd; exact hnd.1
    by_cases hP : e0.category = c ∧ e0.amount = a
    · have hpF : p.2 = es.filter fun e => decide (e.category = c ∧ e.amount = a) := by
        rw [hp2]
        apply List.filter_congr
        intro e he
        apply decide_eq_decide.mpr
        rw [← hkey0, hinj e he e0 he0es, hP.1, hP.2]
      have hFne : (es.filter fun e => decide (e.category = c ∧ e.amount = a)) ≠ [] := by
        rw [← hpF, he0]; exact List.cons_ne_nil _ _
      have hLnil : ((L.filter fun p => decide (t ≤ p.2.length)).filterMap fun p =>
          (match p.2 with
          | [] => none
          | e0 :: tl => some { category := e0.category, amount := e0.amount,
                               frequency := (e0 :: tl).length, expenses := e0 :: tl }
            : Option RecurringGroup)).filter
          (fun g => decide (g.category = c ∧ g.amount = a)) = [] := by
        rw [List.filter_eq_nil_iff]
        intro g hg
        obtain ⟨q, hq', hmk⟩ := List.mem_filterMap.mp hg
        have hqL : q ∈ L := List.mem_of_mem_filter hq'
        obtain ⟨hq2, hqne⟩ := hvalL q hqL
        obtain ⟨e1, tl1, he1⟩ : ∃ e1 tl1, q.2 = e1 :: tl1 := by
          cases hqq : q.2 with
          | nil => exact absurd hqq hqne
          | cons x xs => exact ⟨x, xs, rfl⟩
        rw [he1] at hmk
        have hg' : g = { category := e1.category, amount := e1.amount,
                         frequency := (e1 :: tl1).length, expenses := e1 :: tl1 } := by
          cases hmk; rfl
        simp only [hg', decide_eq_true_eq]
        rintro ⟨hc1, ha1⟩
        have he1p2 : e1 ∈ q.2 := by rw [he1]; exact List.mem_cons_self _ _
        have he1f := List.mem_filter.mp (hq2 ▸ he1p2)
        have he1es : e1 ∈ es := he1f.1
        have hkey1 : recKey e1 = q.1 := by simpa using he1f.2
        have hkeys : recKey e1 = recKey e0 := by
          rw [hinj e1 he1es e0 he0es]
          exact ⟨hc1.trans hP.1.symm, ha1.trans hP.2.symm⟩
        have hq1p1 : q.1 = p.1 := hkey1.symm.trans (hkeys.trans hkey0)
        exact hp1L (hq1p1 ▸ List.mem_map_of_mem Prod.fst hqL)
      rw [List.filter_cons]
      by_cases ht : t ≤ p.2.length
      · rw [if_pos (by simpa using ht), List.filterMap_cons]
        try dsimp only
        rw [he0]
        try dsimp only
        rw [List.filter_cons, if_pos (by simp [hP.1, hP.2]), hLnil]
        rw [if_pos ⟨hpF ▸ ht, hFne⟩]
        have hFval : (es.filter fun e => decide (e.category = c ∧ e.amount = a)) =
            e0 :: tl := hpF.symm.trans he0
        rw [hFval]
        simp [hP.1, hP.2]
      · rw [if_neg (by simpa using ht), hLnil]
        rw [if_neg (by
          rintro ⟨h1, _⟩
          have h2 : t ≤ p.2.length := by rw [hpF]; exact h1
          exact ht h2)]
    · have hcompL : ∀ e ∈ es, e.category = c ∧ e.amount = a → ∃ q ∈ L, e ∈ q.2 := by
        intro e he hpair
        obtain ⟨q, hq, heq⟩ := hcomp e he hpair
        rcases List.mem_cons.mp hq with rfl | hqL
        · exfalso
          have hef := List.mem_filter.mp (hp2 ▸ heq)
          have hees : e ∈ es := hef.1
          have hkeye : recKey e = q.1 := by simpa using hef.2
          have hpair0 : e.category = e0.category ∧ e.amount = e0.amount := by
            rw [← hinj e hees e0 he0es, hkeye, hkey0]
          exact hP ⟨hpair0.1.symm.trans hpair.1, hpair0.2.symm.trans hpair.2⟩
        · exact ⟨q, hqL, heq⟩
      rw [List.filter_cons]
      by_cases ht : t ≤ p.2.length
      · rw [if_pos (by simpa using ht), List.filterMap_cons]
        try dsimp only
        rw [he0]
        try dsimp only
        rw [List.filter_cons, if_neg (by
          simp only [decide_eq_true_eq]
          exact fun hh => hP ⟨hh.1, hh.2⟩)]
        exact ih hvalL hndL hcompL
      · rw [if_neg (by simpa using ht)]
        exact ih hvalL hndL hcompL

/-- C8: under the data-model reading of the composite key — on the given
list, two records have equal keys exactly when they agree on category and
amount, which holds whenever categories come from the fixed enumeration
(no hyphens) and amounts are positive decimals — identifyRecurringExpenses
reports, for every pair (category, amount), exactly one group when the
pair occurs at least threshold times (with frequency the number of
occurrences and the member records attached) and no group otherwise. -/
theorem identifyRecurringExpenses_spec (es : List Expense) (t : ℕ)
    (c : Option String) (a : JSVal)
    (hinj : ∀ e1 ∈ es, ∀ e2 ∈ es,
      recKey e1 = recKey e2 ↔ e1.category = e2.category ∧ e1.amount = e2.amount) :
    (identifyRecurringExpenses es t).filter
        (fun g => decide (g.category = c ∧ g.amount = a)) =
      (if t ≤ (es.filter fun e => decide (e.category = c ∧ e.amount = a)).length ∧
          (es.filter fun e => decide (e.category = c ∧ e.amount = a)) ≠ [] then
        [{ category := c, amount := a,
           frequency := (es.filter fun e => decide (e.category = c ∧ e.amount = a)).length,
           expenses := es.filter fun e => decide (e.category = c ∧ e.amount = a) }]
      else []) := by
  unfold identifyRecurringExpenses
  apply recOut_filter es t c a hinj (recGroups es)
  · intro p hp
    have hnd0 : ((recGroups es).map Prod.fst).Nodup :=
      recGroups_fold_nodup es [] (by simp)
    have hl := lookupA_eq_some_of_mem hnd0 hp
    unfold recGroups at hl
    rw [recGroups_fold_lookup p.1 es []] at hl
    simp only [lookupA, combineOpt] at hl
    by_cases hF' : (es.filter fun e => decide (recKey e = p.1)) = []
    · rw [if_pos hF'] at hl
      exact absurd hl (by simp)
    · rw [if_neg hF'] at hl
      have h2 := Option.some.inj hl
      exact ⟨h2.symm, by rw [← h2]; exact hF'⟩
  · exact recGroups_fold_nodup es [] (by simp)
  · intro e he _
    exact exists_group_of_mem es he

theorem identifyRecurringExpenses_spec_witness :
    (identifyRecurringExpenses
        [{ amount := .num 100, category := some "bills", date := some 0 },
         { amount := .num 100, category := some "bills", date := some 1 },
         { amount := .num 50, category := some "food", date := some 2 },
         { amount := .num 100, category := some "bills", date := some 3 }] 3).filter
      (fun g => decide (g.category = some "bills" ∧ g.amount = .num 100)) =
      [{ category := some "bills", amount := .num 100, frequency := 3,
         expenses :=
           [{ amount := .num 100, category := some "bills", date := some 0 },
            { amount := .num 100, category := some "bills", date := some 1 },
            { amount := .num 100, category := some "bills", date := some 3 }] }] := by
  rw [identifyRecurringExpenses_spec _ 3 (some "bills") (.num 100) (by decide)]
  decide
